import Mathlib

/-!
# FocusGuard — verification of the block/unblock core

Shallow embedding of the FocusGuard browser extension's core logic:

* `src/lib/domain-utils.js` — `extractDomain`, `domainMatches`
* `src/lib/errors.js` (validation part) — `validateDomain`, `validateDuration`
* block manager — `add`, `remove`, `getAll`, `isBlocked`, `getBlockInfo`
* unblock manager — `request`, `confirm`
* schedule manager — `checkSingle`
* `src/unnamed/part_005` (constants) — `DEFAULTS`, `DEFAULT_SETTINGS`

JavaScript objects used as string-keyed maps are embedded as association
lists `List (String × α)` (`jget` / `jset` / `jdel` mirror property read,
property assignment and `delete`).  Millisecond timestamps and all JS
numbers that the code treats as integers are embedded as `Int`.  The wall
clock (`Date.now()`, `getTodayKey()`, `getCurrentDay()`,
`getCurrentTime()`) is passed explicitly to each operation.  Asynchronous
functions are embedded as pure state transformers `State → result × State`;
a thrown `FocusGuardError` is an `Except.error` result, and the returned
state reflects exactly the storage writes that happened before the throw.
-/

deriving instance DecidableEq for Except

namespace FocusGuard

/-! ## JS object maps as association lists -/

/-- Property read `m[k]` on a JS object used as a map. -/
def jget {α : Type} : List (String × α) → String → Option α
  | [], _ => none
  | (k', v) :: rest, k => if k' = k then some v else jget rest k

/-- Property write `m[k] = v`: replaces the binding if present, else appends. -/
def jset {α : Type} : List (String × α) → String → α → List (String × α)
  | [], k, v => [(k, v)]
  | (k', v') :: rest, k, v =>
      if k' = k then (k, v) :: rest else (k', v') :: jset rest k v

/-- Property removal `delete m[k]`. -/
def jdel {α : Type} : List (String × α) → String → List (String × α)
  | [], _ => []
  | (k', v') :: rest, k =>
      if k' = k then jdel rest k else (k', v') :: jdel rest k

/-- Number of bindings for key `k` (1 at most for a real JS object). -/
def countKey {α : Type} (m : List (String × α)) (k : String) : Nat :=
  m.countP (fun p => p.1 = k)

theorem jget_jset_self {α : Type} (m : List (String × α)) (k : String) (v : α) :
    jget (jset m k v) k = some v := by
  induction m with
  | nil => simp [jget, jset]
  | cons hd tl ih =>
    obtain ⟨k', v'⟩ := hd
    by_cases h : k' = k <;> simp [jget, jset, h, ih]

theorem jget_jset_ne {α : Type} (m : List (String × α)) (k k' : String) (v : α)
    (h : k' ≠ k) : jget (jset m k v) k' = jget m k' := by
  have h' : k ≠ k' := Ne.symm h
  induction m with
  | nil => simp [jget, jset, h']
  | cons hd tl ih =>
    obtain ⟨k₀, v₀⟩ := hd
    by_cases h0 : k₀ = k
    · subst h0
      simp [jget, jset, h']
    · by_cases h1 : k₀ = k' <;> simp [jget, jset, h0, h1, h, ih]

theorem jget_jdel_self {α : Type} (m : List (String × α)) (k : String) :
    jget (jdel m k) k = none := by
  induction m with
  | nil => simp [jget, jdel]
  | cons hd tl ih =>
    obtain ⟨k₀, v₀⟩ := hd
    by_cases h0 : k₀ = k <;> simp [jget, jdel, h0, ih]

theorem jget_jdel_ne {α : Type} (m : List (String × α)) (k k' : String)
    (h : k' ≠ k) : jget (jdel m k) k' = jget m k' := by
  have h' : k ≠ k' := Ne.symm h
  induction m with
  | nil => simp [jdel]
  | cons hd tl ih =>
    obtain ⟨k₀, v₀⟩ := hd
    by_cases h0 : k₀ = k
    · subst h0
      simp [jget, jdel, h', ih]
    · by_cases h1 : k₀ = k' <;> simp [jget, jdel, h0, h1, h, ih]

theorem mem_jdel {α : Type} {m : List (String × α)} {k : String}
    {p : String × α} (h : p ∈ jdel m k) : p ∈ m ∧ p.1 ≠ k := by
  induction m with
  | nil => simp [jdel] at h
  | cons hd tl ih =>
    obtain ⟨k₀, v₀⟩ := hd
    by_cases h0 : k₀ = k
    · simp only [jdel, if_pos h0] at h
      exact ⟨List.mem_cons_of_mem _ (ih h).1, (ih h).2⟩
    · simp only [jdel, if_neg h0] at h
      rcases List.mem_cons.mp h with h1 | h1
      · subst h1; exact ⟨List.mem_cons_self _ _, h0⟩
      · exact ⟨List.mem_cons_of_mem _ (ih h1).1, (ih h1).2⟩

/-- A binding found by `jget` survives a `filter` whose predicate it satisfies. -/
theorem jget_filter_keep {α : Type} {m : List (String × α)} {k : String} {v : α}
    (pred : String × α → Bool)
    (h : jget m k = some v) (hp : pred (k, v) = true) :
    jget (m.filter pred) k = some v := by
  induction m with
  | nil => simp [jget] at h
  | cons hd tl ih =>
    obtain ⟨k₀, v₀⟩ := hd
    by_cases h0 : k₀ = k
    · subst h0
      have hv : v₀ = v := by simpa [jget] using h
      subst hv
      simp [List.filter, hp, jget]
    · simp only [jget, if_neg h0] at h
      by_cases hq : pred (k₀, v₀) <;> simp [List.filter, hq, jget, h0, ih h]

/-- If no binding for `k` exists, none exists after filtering either. -/
theorem jget_filter_none {α : Type} {m : List (String × α)} {k : String}
    (pred : String × α → Bool) (h : jget m k = none) :
    jget (m.filter pred) k = none := by
  induction m with
  | nil => simp [jget]
  | cons hd tl ih =>
    obtain ⟨k₀, v₀⟩ := hd
    by_cases h0 : k₀ = k
    · simp [jget, h0] at h
    · simp only [jget, if_neg h0] at h
      by_cases hq : pred (k₀, v₀) <;> simp [List.filter, hq, jget, h0, ih h]

theorem countKey_jset {α : Type} (m : List (String × α)) (k : String) (v : α)
    (h : countKey m k ≤ 1) : countKey (jset m k v) k = 1 := by
  induction m with
  | nil => simp [countKey, jset]
  | cons hd tl ih =>
    obtain ⟨k₀, v₀⟩ := hd
    by_cases h0 : k₀ = k
    · subst h0
      have e1 : countKey ((k₀, v₀) :: tl) k₀ = countKey tl k₀ + 1 := by
        simp [countKey, List.countP_cons]
      have e2 : jset ((k₀, v₀) :: tl) k₀ v = (k₀, v) :: tl := by simp [jset]
      have e3 : countKey ((k₀, v) :: tl) k₀ = countKey tl k₀ + 1 := by
        simp [countKey, List.countP_cons]
      rw [e2, e3]
      omega
    · have e1 : jset ((k₀, v₀) :: tl) k v = (k₀, v₀) :: jset tl k v := by
        simp [jset, h0]
      have e2 : countKey ((k₀, v₀) :: jset tl k v) k = countKey (jset tl k v) k := by
        simp [countKey, List.countP_cons, h0]
      have e3 : countKey ((k₀, v₀) :: tl) k = countKey tl k := by
        simp [countKey, List.countP_cons, h0]
      rw [e1, e2, ih (by omega)]

/-! ## Integer helpers -/

/-- `Math.ceil(a / b)` for integer `a` and positive integer `b`
(used with `b = 1000` to convert milliseconds to whole seconds). -/
def ceilDiv (a b : Int) : Int := -((-a) / b)

theorem ceilDiv_pos_iff (a : Int) : 0 < ceilDiv a 1000 ↔ 0 < a := by
  unfold ceilDiv
  omega

theorem ceilDiv_nonpos (a : Int) (h : a ≤ 0) : ceilDiv a 1000 ≤ 0 := by
  unfold ceilDiv
  omega

theorem ceilDiv_le_ceilDiv {a b : Int} (h : a ≤ b) :
    ceilDiv a 1000 ≤ ceilDiv b 1000 := by
  unfold ceilDiv
  omega

theorem ceilDiv_mul_cancel (w : Int) : ceilDiv (w * 1000) 1000 = w := by
  have h : -(w * 1000) = (-w) * 1000 := by ring
  unfold ceilDiv
  rw [h, Int.mul_ediv_cancel _ (by norm_num : (1000 : Int) ≠ 0)]
  omega

/-! ## Characters and strings

String manipulation is embedded on `List Char` (the underlying data of
`String`) with structurally recursive helpers, so that every definition
evaluates by kernel reduction. `lowerChar` models JavaScript
`toLowerCase` on the ASCII range, which is all that domain strings use. -/

def lowerChar (c : Char) : Char :=
  if 65 ≤ c.toNat ∧ c.toNat ≤ 90 then Char.ofNat (c.toNat + 32) else c

def isWsChar (c : Char) : Bool := c = ' ' ∨ c = '\t' ∨ c = '\n' ∨ c = '\r'

/-- JS `String.prototype.trim`. -/
def trimL (s : List Char) : List Char :=
  ((s.dropWhile isWsChar).reverse.dropWhile isWsChar).reverse

def startsWithL : List Char → List Char → Bool
  | _, [] => true
  | [], _ :: _ => false
  | c :: cs, d :: ds => c = d && startsWithL cs ds

def endsWithL (s p : List Char) : Bool := startsWithL s.reverse p.reverse

/-- Split at the first occurrence of pattern `p`:
`splitAtSub? s p = some (before, after)` with `s = before ++ p ++ after`. -/
def splitAtSub? : List Char → List Char → Option (List Char × List Char)
  | [], _ => none
  | c :: cs, p =>
    if startsWithL (c :: cs) p then some ([], (c :: cs).drop p.length)
    else
      match splitAtSub? cs p with
      | some (b, a) => some (c :: b, a)
      | none => none

/-- JS `String.prototype.includes` for a non-empty pattern. -/
def hasSub (s p : List Char) : Bool := (splitAtSub? s p).isSome

def validSchemeL (s : List Char) : Bool :=
  match s with
  | [] => false
  | c :: cs =>
      c.isAlpha && cs.all (fun d => d.isAlpha || d.isDigit || d = '+' || d = '-' || d = '.')

/-- Model of WHATWG URL host extraction (`new URL(u).hostname`) for the URL
shapes this code builds: `scheme "://" [userinfo "@"] host [":" port]
[path ...]`. IPv6 literals, percent-encoding and IDN normalization are not
modelled. The parser lowercases the host and throws (here: `none`) on an
empty host or an invalid scheme. -/
def hostnameOfL (s : List Char) : Option (List Char) :=
  match splitAtSub? s [':', '/', '/'] with
  | none => none
  | some (scheme, rest) =>
    if validSchemeL scheme then
      let auth := rest.takeWhile (fun c => !(c = '/' || c = '?' || c = '#'))
      let hostPort := (auth.reverse.takeWhile (fun c => c ≠ '@')).reverse
      let host := hostPort.takeWhile (fun c => c ≠ ':')
      if host = [] then none else some (host.map lowerChar)
    else none

/-- `extractDomain` from src/lib/domain-utils.js. JS returns `null` for
empty input and on URL parse failure, and `""` when the host was exactly
`"www."`; every caller treats both cases with the same falsy check, so
both are embedded as `none`. -/
def extractDomain (url : String) : Option String :=
  if url.data = [] then none else
  let t := trimL url.data
  let withScheme :=
    if hasSub t [':', '/', '/'] then t
    else ['h', 't', 't', 'p', 's', ':', '/', '/'] ++ t
  match hostnameOfL withScheme with
  | none => none
  | some h =>
    -- hostname.replace(/^www\./, '').toLowerCase(); the parser already
    -- lowercased the host, so the final toLowerCase is a no-op.
    let h1 := if startsWithL h ['w', 'w', 'w', '.'] then h.drop 4 else h
    let h2 := h1.map lowerChar
    if h2 = [] then none else some (String.mk h2)

/-- `domainMatches(childDomain, parentDomain)` from src/lib/domain-utils.js. -/
def domainMatches (childDomain parentDomain : String) : Bool :=
  if childDomain.data = [] ∨ parentDomain.data = [] then false
  else
    let child := childDomain.data.map lowerChar
    let parent := parentDomain.data.map lowerChar
    child = parent || endsWithL child ('.' :: parent)

theorem startsWithL_iff (s p : List Char) :
    startsWithL s p = true ↔ p <+: s := by
  induction s generalizing p with
  | nil =>
    cases p with
    | nil => simp [startsWithL]
    | cons d ds => simp [startsWithL]
  | cons c cs ih =>
    cases p with
    | nil => simp [startsWithL]
    | cons d ds =>
      simp only [startsWithL, Bool.and_eq_true, decide_eq_true_eq, ih,
        List.cons_prefix_cons]
      tauto

theorem endsWithL_iff (s p : List Char) :
    endsWithL s p = true ↔ p <:+ s := by
  rw [endsWithL, startsWithL_iff, List.reverse_prefix]

/-! ## Constants (src/unnamed/part_005, constants module) -/

namespace DEFAULTS

def BLOCK_DURATION_MINUTES : Int := 60

def UNBLOCK_DELAY_BASE_MINUTES : Int := 5

def UNBLOCK_DELAY_MAX_MINUTES : Int := 15

def UNBLOCK_DELAY_ESCALATION_MINUTES : Int := 5

def MIN_BLOCK_MINUTES : Int := 1

def MAX_BLOCK_MINUTES : Int := 480

def PENDING_UNBLOCK_GRACE_PERIOD_MS : Int := 60 * 60 * 1000

end DEFAULTS

namespace BLOCK_REASONS

def MANUAL : String := "manual"

def SCHEDULE : String := "schedule"

end BLOCK_REASONS

/-! ## Error codes (src/lib/errors.js) -/

inductive ErrorCode
  | invalid_domain
  | invalid_duration
  | duration_too_short
  | duration_too_long
  | invalid_schedule
  | schedule_no_days
  | schedule_invalid_time
  | schedule_no_domains
  | block_not_found
  | already_blocked
  | not_blockable
  | unblock_pending
  | unblock_delay_not_complete
  | no_pending_unblock
  | storage_read_failed
  | storage_write_failed
  | storage_lock_timeout
  | message_timeout
  | message_failed
  | unknown_action
  | unknown_error
deriving DecidableEq

/-- A thrown `FocusGuardError`: its code plus the only detail the claims
inspect, the `remainingTime` entry of `details` (in whole seconds). -/
structure FGError where
  code : ErrorCode
  remainingTime : Option Int
deriving DecidableEq

/-! ## Data model (§3 of the spec, from the storage and manager modules) -/

structure BlockEntry where
  «until» : Int
  blockedAt : Int
  reason : String
deriving DecidableEq

structure PendingUnblock where
  requestedAt : Int
  unlocksAt : Int
  attemptNumber : Int
deriving DecidableEq

structure Settings where
  defaultBlockDuration : Int
  unblockDelayBase : Int
  unblockDelayEscalation : Bool
  showMotivationalQuotes : Bool
deriving DecidableEq

structure Stats where
  totalBlocksCreated : Int
  blockedAttempts : List (String × Int)
  siteAttempts : List (String × Int)
  streakStartDate : Option String
  lastActiveDate : Option String
deriving DecidableEq

def DEFAULT_SETTINGS : Settings := ⟨60, 5, true, true⟩

def DEFAULT_STATS : Stats := ⟨0, [], [], none, none⟩

/-- A schedule as evaluated by `checkSingle`. `startTime`/`endTime` are the
minutes-since-midnight values `parseTimeToMinutes` produces from the stored
HH:MM strings; the HH:MM string form itself plays no role in the claims. -/
structure Schedule where
  id : String
  domains : List String
  startTime : Int
  endTime : Int
  days : List Int
  enabled : Bool
  createdAt : Int
deriving DecidableEq

/-- The two storage namespaces, already scoped to the keys the claims use
(`activeBlocks`, `settings`, `stats`, `pendingUnblocks`, `dailyAttempts`),
with the defaults of `getSettings`/`getStats` merged at the read boundary. -/
structure StoreState where
  activeBlocks : List (String × BlockEntry)
  settings : Settings
  stats : Stats
  pendingUnblocks : List (String × PendingUnblock)
  dailyAttempts : List (String × Int)
deriving DecidableEq

/-! ## Validation (validation module, concatenated in src/lib/errors.js) -/

def invalidPatternL (s : List Char) : Bool :=
  startsWithL s ['.'] || endsWithL s ['.'] || hasSub s ['.', '.'] ||
    s.any isWsChar ||
    s.any (fun c => c = '<' || c = '>' || c = Char.ofNat 39 || c = '"' || c = '&')

/-- `validateDomain`: returns the cleaned domain or the first error code
(every failure branch of the source uses `invalid_domain`). -/
def validateDomain (domain : String) : Except ErrorCode String :=
  if domain.data = [] then .error .invalid_domain
  else
    match extractDomain domain with
    | none => .error .invalid_domain
    | some cleaned =>
      if cleaned.data.length < 3 then .error .invalid_domain
      else if !cleaned.data.contains '.' then .error .invalid_domain
      else if invalidPatternL cleaned.data then .error .invalid_domain
      else .ok cleaned

/-- The duration argument as seen through JS `parseInt(x, 10)`: `num n`
when parsing yields the integer `n`, `nonNumeric` when it yields `NaN`. -/
inductive DurationInput
  | num (n : Int)
  | nonNumeric
deriving DecidableEq

/-- `validateDuration` from the validation module. -/
def validateDuration : DurationInput → Except ErrorCode Int
  | .nonNumeric => .error .invalid_duration
  | .num n =>
    if n < DEFAULTS.MIN_BLOCK_MINUTES then .error .duration_too_short
    else if n > DEFAULTS.MAX_BLOCK_MINUTES then .error .duration_too_long
    else .ok n

/-! ## Block manager (block-manager module) -/

namespace BlockManager

/-- `add(domain, minutes, reason)`: validate, then upsert the BlockEntry
and bump `totalBlocksCreated`. -/
def add (now : Int) (st : StoreState) (domain : String) (minutes : DurationInput)
    (reason : String) : Except FGError String × StoreState :=
  match validateDomain domain with
  | .error c => (.error ⟨c, none⟩, st)
  | .ok cleanDomain =>
    match validateDuration minutes with
    | .error c => (.error ⟨c, none⟩, st)
    | .ok validMinutes =>
      let entry : BlockEntry := ⟨now + validMinutes * 60 * 1000, now, reason⟩
      let st1 := { st with activeBlocks := jset st.activeBlocks cleanDomain entry }
      let st2 := { st1 with stats :=
        { st1.stats with totalBlocksCreated := st1.stats.totalBlocksCreated + 1 } }
      (.ok cleanDomain, st2)

/-- `remove(domain)`: delete the BlockEntry if present, always delete any
PendingUnblock for the domain, then report `block_not_found` if there was
no BlockEntry (note the pending-unblock delete happens before the throw). -/
def remove (st : StoreState) (domain : String) : Except FGError String × StoreState :=
  match extractDomain domain with
  | none => (.error ⟨.invalid_domain, none⟩, st)
  | some cleanDomain =>
    let found := (jget st.activeBlocks cleanDomain).isSome
    let blocks := if found then jdel st.activeBlocks cleanDomain else st.activeBlocks
    let st1 := { st with
      activeBlocks := blocks,
      pendingUnblocks := jdel st.pendingUnblocks cleanDomain }
    if found then (.ok cleanDomain, st1) else (.error ⟨.block_not_found, none⟩, st1)

/-- `getAll()`: return non-expired entries; when at least one entry has
expired, persist the pruned map (lazy expiry on read). -/
def getAll (now : Int) (st : StoreState) :
    List (String × BlockEntry) × StoreState :=
  let activeBlocks := st.activeBlocks.filter (fun p => decide (now < p.2.«until»))
  let hasExpired := st.activeBlocks.any (fun p => decide (¬ now < p.2.«until»))
  (activeBlocks, if hasExpired then { st with activeBlocks := activeBlocks } else st)

/-- `isBlocked(domain)`: direct match first, then a scan for a blocked
parent domain via `domainMatches`. -/
def isBlocked (now : Int) (st : StoreState) (domain : String) : Bool × StoreState :=
  match extractDomain domain with
  | none => (false, st)
  | some cleanDomain =>
    let blocks := (getAll now st).1
    let st1 := (getAll now st).2
    if (jget blocks cleanDomain).isSome then (true, st1)
    else (blocks.any (fun p => domainMatches cleanDomain p.1), st1)

/-- `getBlockInfo(domain)`: like `isBlocked` but returns the matched
block's own key together with its entry. -/
def getBlockInfo (now : Int) (st : StoreState) (domain : String) :
    Option (String × BlockEntry) × StoreState :=
  match extractDomain domain with
  | none => (none, st)
  | some cleanDomain =>
    let blocks := (getAll now st).1
    let st1 := (getAll now st).2
    match jget blocks cleanDomain with
    | some info => (some (cleanDomain, info), st1)
    | none =>
      match blocks.find? (fun p => domainMatches cleanDomain p.1) with
      | some p => (some (p.1, p.2), st1)
      | none => (none, st1)

end BlockManager

/-! ## Unblock manager (src/unnamed/part_006) -/

/-- The success payload of `request`. -/
structure ReqSuccess where
  waitTime : Int
  unlocksAt : Int
  attemptNumber : Int
deriving DecidableEq

namespace UnblockManager

/-- The part of `request` after the already-pending gate: attempt counting,
escalation, and persisting the new PendingUnblock. `today` is
`getTodayKey()` (the YYYY-MM-DD string of the injected clock). -/
def requestCore (now : Int) (today : String) (st : StoreState) (cleanDomain : String) :
    Except FGError ReqSuccess × StoreState :=
  let attemptKey := cleanDomain ++ "_" ++ today
  let attemptNumber := (jget st.dailyAttempts attemptKey).getD 0 + 1
  let st1 := { st with dailyAttempts := jset st.dailyAttempts attemptKey attemptNumber }
  -- settings.unblockDelayBase || DEFAULTS.UNBLOCK_DELAY_BASE_MINUTES
  let base :=
    if st.settings.unblockDelayBase = 0 then DEFAULTS.UNBLOCK_DELAY_BASE_MINUTES
    else st.settings.unblockDelayBase
  let delayMinutes :=
    if st.settings.unblockDelayEscalation ∧ 1 < attemptNumber then
      min DEFAULTS.UNBLOCK_DELAY_MAX_MINUTES
        (base + (attemptNumber - 1) * DEFAULTS.UNBLOCK_DELAY_ESCALATION_MINUTES)
    else base
  let waitTimeSeconds := delayMinutes * 60
  let unlocksAt := now + waitTimeSeconds * 1000
  let entry : PendingUnblock := ⟨now, unlocksAt, attemptNumber⟩
  let st2 := { st1 with pendingUnblocks := jset st1.pendingUnblocks cleanDomain entry }
  (.ok ⟨waitTimeSeconds, unlocksAt, attemptNumber⟩, st2)

/-- `request(domain)`: reject while a still-locked PendingUnblock exists,
otherwise escalate and persist a fresh one. -/
def request (now : Int) (today : String) (st : StoreState) (domain : String) :
    Except FGError ReqSuccess × StoreState :=
  match extractDomain domain with
  | none => (.error ⟨.invalid_domain, none⟩, st)
  | some cleanDomain =>
    match jget st.pendingUnblocks cleanDomain with
    | some p =>
      let remaining := ceilDiv (p.unlocksAt - now) 1000
      if 0 < remaining then (.error ⟨.unblock_pending, some remaining⟩, st)
      else requestCore now today st cleanDomain
    | none => requestCore now today st cleanDomain

/-- The part of `confirm` after the delay gate (shared by the no-pending
and delay-satisfied paths): delegate to the block manager's `remove`
(whose thrown errors propagate), then clear the PendingUnblock. -/
def confirmCore (st : StoreState) (cleanDomain : String) :
    Except FGError String × StoreState :=
  let r := BlockManager.remove st cleanDomain
  match r.1 with
  | .error e => (.error e, r.2)
  | .ok _ =>
    (.ok cleanDomain,
      { r.2 with pendingUnblocks := jdel r.2.pendingUnblocks cleanDomain })

/-- `confirm(domain)`: the authoritative gate, re-checking the deadline
against a fresh clock value. -/
def confirm (now : Int) (st : StoreState) (domain : String) :
    Except FGError String × StoreState :=
  match extractDomain domain with
  | none => (.error ⟨.invalid_domain, none⟩, st)
  | some cleanDomain =>
    match jget st.pendingUnblocks cleanDomain with
    | some p =>
      let remaining := p.unlocksAt - now
      if 0 < remaining then
        (.error ⟨.unblock_delay_not_complete, some (ceilDiv remaining 1000)⟩, st)
      else confirmCore st cleanDomain
    | none => confirmCore st cleanDomain

end UnblockManager

/-! ## Time window helpers (src/lib/time-utils.js) on parsed minute values -/

/-- `isInTimeWindow` on already-parsed minute-of-day values. -/
def isInTimeWindow (currentMinutes startM endM : Int) : Bool :=
  decide (startM ≤ currentMinutes) && decide (currentMinutes < endM)

/-- `minutesUntilEndTime` on already-parsed minute-of-day values. -/
def minutesUntilEndTime (currentMinutes endM : Int) : Int :=
  if 0 < endM - currentMinutes then endM - currentMinutes else 0

/-! ## Schedule manager (src/unnamed/part_005) -/

namespace ScheduleManager

/-- One iteration of the domain loop of `checkSingle`. The source wraps the
body in `try`/`catch` and only logs failures, and `add` mutates nothing on
its (validation) error paths, so a failed `add` leaves the state as it was. -/
def scheduleStep (now remainingMinutes : Int) (st : StoreState) (domain : String) :
    StoreState :=
  let blockInfo := (BlockManager.getBlockInfo now st domain).1
  let st1 := (BlockManager.getBlockInfo now st domain).2
  match blockInfo with
  | some info =>
    if info.2.reason ≠ BLOCK_REASONS.SCHEDULE then
      (BlockManager.add now st1 domain (.num remainingMinutes) BLOCK_REASONS.SCHEDULE).2
    else st1
  | none =>
    (BlockManager.add now st1 domain (.num remainingMinutes) BLOCK_REASONS.SCHEDULE).2

/-- `checkSingle(schedule)`. The clock is passed explicitly: `now` in ms,
`currentDay` (0–6, `getCurrentDay()`), and `currentMinutes`
(minutes since midnight, `parseTimeToMinutes(getCurrentTime())`). -/
def checkSingle (now currentDay currentMinutes : Int) (sched : Schedule)
    (st : StoreState) : StoreState :=
  if !sched.enabled then st
  else if !sched.days.contains currentDay then st
  else if !isInTimeWindow currentMinutes sched.startTime sched.endTime then st
  else
    let remainingMinutes := minutesUntilEndTime currentMinutes sched.endTime
    if remainingMinutes ≤ 0 then st
    else sched.domains.foldl (scheduleStep now remainingMinutes) st

end ScheduleManager

/-! ## Claim C4 — containment matching -/

/-- **C4.** For all non-empty, normalized (lowercase — the form every
stored/compared domain has, per §3 of the spec) domain strings `a` and `b`,
`domainMatches a b` is true iff `a = b` or `a` ends with `"." ++ b`; in
particular `"notexample.com"` does not match `"example.com"` (containment,
not substring) and `"example.com"` does not match `"sub.example.com"`
(a parent never matches as child of its own subdomain). -/
theorem domainMatches_spec (a b : String)
    (ha : a.data ≠ []) (hb : b.data ≠ [])
    (hla : a.data.map lowerChar = a.data) (hlb : b.data.map lowerChar = b.data) :
    (domainMatches a b = true ↔ (a = b ∨ ('.' :: b.data) <:+ a.data)) ∧
    domainMatches "notexample.com" "example.com" = false ∧
    domainMatches "example.com" "sub.example.com" = false := by
  refine ⟨?_, by decide, by decide⟩
  unfold domainMatches
  rw [if_neg (by tauto)]
  simp only [hla, hlb, Bool.or_eq_true, decide_eq_true_eq, endsWithL_iff]
  constructor
  · rintro (h | h)
    · exact Or.inl (String.ext h)
    · exact Or.inr h
  · rintro (h | h)
    · subst h
      exact Or.inl rfl
    · exact Or.inr h

/-- Witness for C4 at `a = "sub.example.com"`, `b = "example.com"`. -/
theorem domainMatches_spec_witness :
    (domainMatches "sub.example.com" "example.com" = true ↔
      ("sub.example.com" : String) = "example.com" ∨
        ('.' :: ("example.com" : String).data) <:+ ("sub.example.com" : String).data) ∧
    domainMatches "notexample.com" "example.com" = false ∧
    domainMatches "example.com" "sub.example.com" = false :=
  domainMatches_spec "sub.example.com" "example.com"
    (by decide) (by decide) (by decide) (by decide)

/-! ## Claim C6 — duration validation bounds in `add` -/

/-- **C6.** With a domain that validates, `add` accepts exactly the integer
durations `1 ≤ m ≤ 480`: `0` fails with `duration_too_short`, `481` fails
with the distinct `duration_too_long`, `1` and `480` succeed (creating the
block entry), and a non-numeric duration fails with the distinct
`invalid_duration` kind. -/
theorem add_duration_spec (now : Int) (st : StoreState) (d k reason : String)
    (hd : validateDomain d = .ok k) :
    (∀ m : Int,
      ((BlockManager.add now st d (.num m) reason).1 = .ok k ↔ 1 ≤ m ∧ m ≤ 480)) ∧
    (BlockManager.add now st d (.num 0) reason).1 =
      .error ⟨.duration_too_short, none⟩ ∧
    (BlockManager.add now st d (.num 481) reason).1 =
      .error ⟨.duration_too_long, none⟩ ∧
    (BlockManager.add now st d (.num 1) reason).1 = .ok k ∧
    (BlockManager.add now st d (.num 480) reason).1 = .ok k ∧
    (∀ m : Int, 1 ≤ m → m ≤ 480 →
      jget (BlockManager.add now st d (.num m) reason).2.activeBlocks k =
        some ⟨now + m * 60 * 1000, now, reason⟩) ∧
    (BlockManager.add now st d .nonNumeric reason).1 =
      .error ⟨.invalid_duration, none⟩ := by
  have hnum : ∀ m : Int, validateDuration (.num m) =
      (if m < 1 then .error .duration_too_short
       else if m > 480 then .error .duration_too_long else .ok m) := by
    intro m
    rfl
  refine ⟨?_, ?_, ?_, ?_, ?_, ?_, ?_⟩
  · intro m
    unfold BlockManager.add
    rw [hd, hnum]
    by_cases h1 : m < 1
    · simp only [if_pos h1]
      constructor
      · intro h
        exact Except.noConfusion h
      · intro h
        omega
    · by_cases h2 : m > 480
      · simp only [if_neg h1, if_pos h2]
        constructor
        · intro h
          exact Except.noConfusion h
        · intro h
          omega
      · simp only [if_neg h1, if_neg h2]
        constructor
        · intro _
          omega
        · intro _
          trivial
  · unfold BlockManager.add
    rw [hd, hnum]
    norm_num
  · unfold BlockManager.add
    rw [hd, hnum]
    norm_num
  · unfold BlockManager.add
    rw [hd, hnum]
    norm_num
  · unfold BlockManager.add
    rw [hd, hnum]
    norm_num
  · intro m hm1 hm2
    unfold BlockManager.add
    rw [hd, hnum]
    rw [if_neg (by omega), if_neg (by omega)]
    exact jget_jset_self _ _ _
  · unfold BlockManager.add
    rw [hd]
    rfl

/-- Witness for C6 at domain `"example.com"` on the empty store. -/
theorem add_duration_spec_witness :
    (BlockManager.add 0 ⟨[], DEFAULT_SETTINGS, DEFAULT_STATS, [], []⟩
      "example.com" (.num 0) "manual").1 = .error ⟨.duration_too_short, none⟩ ∧
    (BlockManager.add 0 ⟨[], DEFAULT_SETTINGS, DEFAULT_STATS, [], []⟩
      "example.com" (.num 481) "manual").1 = .error ⟨.duration_too_long, none⟩ ∧
    (BlockManager.add 0 ⟨[], DEFAULT_SETTINGS, DEFAULT_STATS, [], []⟩
      "example.com" (.num 1) "manual").1 = .ok "example.com" ∧
    (BlockManager.add 0 ⟨[], DEFAULT_SETTINGS, DEFAULT_STATS, [], []⟩
      "example.com" (.num 480) "manual").1 = .ok "example.com" ∧
    (BlockManager.add 0 ⟨[], DEFAULT_SETTINGS, DEFAULT_STATS, [], []⟩
      "example.com" .nonNumeric "manual").1 = .error ⟨.invalid_duration, none⟩ := by
  have h := add_duration_spec 0 ⟨[], DEFAULT_SETTINGS, DEFAULT_STATS, [], []⟩
    "example.com" "example.com" "manual" (by decide)
  exact ⟨h.2.1, h.2.2.1, h.2.2.2.1, h.2.2.2.2.1, h.2.2.2.2.2.2⟩

/-! ## Claim C7 — `remove` deletes block and pending unblock -/

/-- **C7.** For every stored state and domain that normalizes to a
non-empty value, `remove` deletes the domain's BlockEntry if present,
always deletes any PendingUnblock keyed by that domain, leaves every other
key untouched, and reports `block_not_found` exactly when the domain had
no BlockEntry. -/
theorem remove_spec (st : StoreState) (d k : String)
    (hd : extractDomain d = some k) :
    ((BlockManager.remove st d).1 =
      (if jget st.activeBlocks k = none then .error ⟨.block_not_found, none⟩
       else .ok k)) ∧
    jget (BlockManager.remove st d).2.activeBlocks k = none ∧
    jget (BlockManager.remove st d).2.pendingUnblocks k = none ∧
    (∀ k', k' ≠ k →
      jget (BlockManager.remove st d).2.activeBlocks k' = jget st.activeBlocks k' ∧
      jget (BlockManager.remove st d).2.pendingUnblocks k' =
        jget st.pendingUnblocks k') := by
  unfold BlockManager.remove
  rw [hd]
  cases hb : jget st.activeBlocks k with
  | none =>
    refine ⟨?_, ?_, ?_, ?_⟩
    · simp [hb]
    · simp [hb]
    · simp [hb, jget_jdel_self]
    · intro k' hk'
      exact ⟨by simp [hb], by simp [hb, jget_jdel_ne _ _ _ hk']⟩
  | some e =>
    refine ⟨?_, ?_, ?_, ?_⟩
    · simp [hb]
    · simp [hb, jget_jdel_self]
    · simp [hb, jget_jdel_self]
    · intro k' hk'
      exact ⟨by simp [hb, jget_jdel_ne _ _ _ hk'],
        by simp [hb, jget_jdel_ne _ _ _ hk']⟩

/-- Witness for C7: removing `"example.com"` from a store that blocks it
and has a pending unblock for it. -/
theorem remove_spec_witness :
    (BlockManager.remove
      ⟨[("example.com", ⟨600000, 0, "manual"⟩)], DEFAULT_SETTINGS, DEFAULT_STATS,
        [("example.com", ⟨0, 300000, 1⟩)], []⟩ "example.com").1 = .ok "example.com" ∧
    jget (BlockManager.remove
      ⟨[("example.com", ⟨600000, 0, "manual"⟩)], DEFAULT_SETTINGS, DEFAULT_STATS,
        [("example.com", ⟨0, 300000, 1⟩)], []⟩ "example.com").2.pendingUnblocks
      "example.com" = none := by
  have h := remove_spec
    ⟨[("example.com", ⟨600000, 0, "manual"⟩)], DEFAULT_SETTINGS, DEFAULT_STATS,
      [("example.com", ⟨0, 300000, 1⟩)], []⟩ "example.com" "example.com" (by decide)
  refine ⟨?_, h.2.2.1⟩
  have h1 := h.1
  rw [if_neg (by decide)] at h1
  exact h1

/-! ## Claim C8 — idempotence of expiry pruning in `getAll` -/

/-- `getAll` when at least one entry expired: prune and persist. -/
theorem getAll_pos_eq (now : Int) (st : StoreState)
    (hexp : st.activeBlocks.any (fun p => decide (¬ now < p.2.«until»)) = true) :
    BlockManager.getAll now st =
      (st.activeBlocks.filter (fun p => decide (now < p.2.«until»)),
        { st with activeBlocks :=
            st.activeBlocks.filter (fun p => decide (now < p.2.«until»)) }) := by
  simp only [BlockManager.getAll]
  rw [if_pos hexp]

/-- `getAll` when no entry expired: everything is returned, nothing persisted. -/
theorem getAll_neg_eq (now : Int) (st : StoreState)
    (hexp : st.activeBlocks.any (fun p => decide (¬ now < p.2.«until»)) = false) :
    BlockManager.getAll now st = (st.activeBlocks, st) := by
  have hall : ∀ p ∈ st.activeBlocks, decide (now < p.2.«until») = true := by
    intro p hp
    by_contra hc
    have hx : st.activeBlocks.any (fun p => decide (¬ now < p.2.«until»)) = true := by
      rw [List.any_eq_true]
      refine ⟨p, hp, ?_⟩
      simp at hc ⊢
      omega
    rw [hx] at hexp
    exact Bool.noConfusion hexp
  simp [BlockManager.getAll, hexp, List.filter_eq_self.mpr hall]

/-- The map is fully pruned after one `getAll`: no remaining entry is expired. -/
theorem getAll_snd_pruned (now : Int) (st : StoreState) :
    (BlockManager.getAll now st).2.activeBlocks.any
      (fun p => decide (¬ now < p.2.«until»)) = false ∧
    (BlockManager.getAll now st).1 = (BlockManager.getAll now st).2.activeBlocks := by
  have hany : ∀ m : List (String × BlockEntry),
      ((m.filter (fun p => decide (now < p.2.«until»))).any
        (fun p => decide (¬ now < p.2.«until»))) = false := by
    intro m
    rw [Bool.eq_false_iff]
    intro hcontra
    rw [List.any_eq_true] at hcontra
    obtain ⟨p, hmem, hp⟩ := hcontra
    have := (List.mem_filter.mp hmem).2
    simp at this hp
    omega
  by_cases hexp : st.activeBlocks.any (fun p => decide (¬ now < p.2.«until»)) = true
  · rw [getAll_pos_eq now st hexp]
    exact ⟨hany st.activeBlocks, rfl⟩
  · rw [Bool.not_eq_true] at hexp
    rw [getAll_neg_eq now st hexp]
    exact ⟨hexp, rfl⟩

/-- **C8.** At a fixed clock instant, calling `getAll` twice with no
intervening writes returns the same pruned map both times and the second
call does not mutate the stored state; moreover the persist-pruned-map
side effect does not fire when no entry was expired (the state is returned
unchanged in that case). -/
theorem getAll_idempotent (now : Int) (st : StoreState) :
    (BlockManager.getAll now (BlockManager.getAll now st).2).1 =
      (BlockManager.getAll now st).1 ∧
    (BlockManager.getAll now (BlockManager.getAll now st).2).2 =
      (BlockManager.getAll now st).2 ∧
    ((∀ p ∈ st.activeBlocks, now < p.2.«until») →
      (BlockManager.getAll now st).2 = st) := by
  obtain ⟨hA, hB⟩ := getAll_snd_pruned now st
  have h2 := getAll_neg_eq now (BlockManager.getAll now st).2 hA
  refine ⟨?_, ?_, ?_⟩
  · rw [h2]
    exact hB.symm
  · rw [h2]
  · intro hall
    have hx : st.activeBlocks.any (fun p => decide (¬ now < p.2.«until»)) = false := by
      rw [Bool.eq_false_iff]
      intro hc
      rw [List.any_eq_true] at hc
      obtain ⟨p, hmem, hp⟩ := hc
      have := hall p hmem
      simp at hp
      omega
    rw [getAll_neg_eq now st hx]

/-- Witness for C8 on a store with one expired and one live block. -/
theorem getAll_idempotent_witness :
    (BlockManager.getAll 500000
      (BlockManager.getAll 500000
        ⟨[("a.com", ⟨100000, 0, "manual"⟩), ("b.com", ⟨900000, 0, "manual"⟩)],
          DEFAULT_SETTINGS, DEFAULT_STATS, [], []⟩).2).1 =
      (BlockManager.getAll 500000
        ⟨[("a.com", ⟨100000, 0, "manual"⟩), ("b.com", ⟨900000, 0, "manual"⟩)],
          DEFAULT_SETTINGS, DEFAULT_STATS, [], []⟩).1 ∧
    (BlockManager.getAll 500000
      (BlockManager.getAll 500000
        ⟨[("a.com", ⟨100000, 0, "manual"⟩), ("b.com", ⟨900000, 0, "manual"⟩)],
          DEFAULT_SETTINGS, DEFAULT_STATS, [], []⟩).2).2 =
      (BlockManager.getAll 500000
        ⟨[("a.com", ⟨100000, 0, "manual"⟩), ("b.com", ⟨900000, 0, "manual"⟩)],
          DEFAULT_SETTINGS, DEFAULT_STATS, [], []⟩).2 :=
  ⟨(getAll_idempotent 500000
      ⟨[("a.com", ⟨100000, 0, "manual"⟩), ("b.com", ⟨900000, 0, "manual"⟩)],
        DEFAULT_SETTINGS, DEFAULT_STATS, [], []⟩).1,
    (getAll_idempotent 500000
      ⟨[("a.com", ⟨100000, 0, "manual"⟩), ("b.com", ⟨900000, 0, "manual"⟩)],
        DEFAULT_SETTINGS, DEFAULT_STATS, [], []⟩).2.1⟩

/-! ## Claims C1, C5, C10 — the unblock request state machine -/

/-- The delay (in minutes) the spec prescribes for attempt `attemptNumber`
with base delay `base` and escalation enabled: `base` for attempt 1,
`min(maxDelay = 15, base + (N-1) * escalationStep = 5)` for attempt `N > 1`. -/
def specDelay (base attemptNumber : Int) : Int :=
  if attemptNumber = 1 then base else min 15 (base + (attemptNumber - 1) * 5)

/-- Evaluation of `requestCore` (the post-gate part of `request`): the code's
escalation computation agrees with `specDelay`, and the new attempt count and
PendingUnblock are persisted. Requires a configured (non-zero, due to the
`||`-fallback) base, escalation on, and a non-negative stored counter (the
code only ever stores positive counts). -/
theorem requestCore_eval (now : Int) (today : String) (st : StoreState) (k : String)
    (hesc : st.settings.unblockDelayEscalation = true)
    (hbase : st.settings.unblockDelayBase ≠ 0)
    (hprev : 0 ≤ (jget st.dailyAttempts (k ++ "_" ++ today)).getD 0) :
    UnblockManager.requestCore now today st k =
      (.ok ⟨specDelay st.settings.unblockDelayBase
              ((jget st.dailyAttempts (k ++ "_" ++ today)).getD 0 + 1) * 60,
            now + specDelay st.settings.unblockDelayBase
              ((jget st.dailyAttempts (k ++ "_" ++ today)).getD 0 + 1) * 60 * 1000,
            (jget st.dailyAttempts (k ++ "_" ++ today)).getD 0 + 1⟩,
        { st with
            dailyAttempts := jset st.dailyAttempts (k ++ "_" ++ today)
              ((jget st.dailyAttempts (k ++ "_" ++ today)).getD 0 + 1),
            pendingUnblocks := jset st.pendingUnblocks k
              ⟨now,
                now + specDelay st.settings.unblockDelayBase
                  ((jget st.dailyAttempts (k ++ "_" ++ today)).getD 0 + 1) * 60 * 1000,
                (jget st.dailyAttempts (k ++ "_" ++ today)).getD 0 + 1⟩ }) := by
  simp only [UnblockManager.requestCore, DEFAULTS.UNBLOCK_DELAY_MAX_MINUTES,
    DEFAULTS.UNBLOCK_DELAY_ESCALATION_MINUTES, DEFAULTS.UNBLOCK_DELAY_BASE_MINUTES]
  rw [if_neg hbase, hesc, specDelay]
  by_cases h1 : (jget st.dailyAttempts (k ++ "_" ++ today)).getD 0 + 1 = 1
  · rw [if_pos h1, if_neg (fun hc => absurd hc.2 (by omega))]
  · rw [if_neg h1, if_pos ⟨rfl, by omega⟩]

/-- Under the no-still-pending hypothesis, `request` runs `requestCore`. -/
theorem request_runs_core (now : Int) (today : String) (st : StoreState) (d k : String)
    (hd : extractDomain d = some k)
    (hp : ∀ p, jget st.pendingUnblocks k = some p → p.unlocksAt ≤ now) :
    UnblockManager.request now today st d = UnblockManager.requestCore now today st k := by
  simp only [UnblockManager.request, hd]
  cases hjp : jget st.pendingUnblocks k with
  | none => rfl
  | some p =>
    have hle : p.unlocksAt ≤ now := hp p hjp
    simp only []
    rw [if_neg (by have := ceilDiv_nonpos (p.unlocksAt - now) (by omega); omega)]

/-- **C1.** For a fixed domain and calendar day, with escalation enabled and
a configured base, `request` grants exactly the spec's escalating delay for
the day's `N`-th attempt (`base` for attempt 1, `min(15, base + (N-1)*5)`
for `N > 1`; with the default base 5 this is 5, 10, 15, 15, … minutes,
clamped at 15 from attempt 3 on) and persists a PendingUnblock with
`unlocksAt = now + delay`. -/
theorem request_escalation_spec (now : Int) (today : String) (st : StoreState)
    (d k : String)
    (hd : extractDomain d = some k)
    (hp : ∀ p, jget st.pendingUnblocks k = some p → p.unlocksAt ≤ now)
    (hesc : st.settings.unblockDelayEscalation = true)
    (hbase : st.settings.unblockDelayBase ≠ 0)
    (hprev : 0 ≤ (jget st.dailyAttempts (k ++ "_" ++ today)).getD 0) :
    (UnblockManager.request now today st d).1 =
      .ok ⟨specDelay st.settings.unblockDelayBase
              ((jget st.dailyAttempts (k ++ "_" ++ today)).getD 0 + 1) * 60,
            now + specDelay st.settings.unblockDelayBase
              ((jget st.dailyAttempts (k ++ "_" ++ today)).getD 0 + 1) * 60 * 1000,
            (jget st.dailyAttempts (k ++ "_" ++ today)).getD 0 + 1⟩ ∧
    jget (UnblockManager.request now today st d).2.pendingUnblocks k =
      some ⟨now,
        now + specDelay st.settings.unblockDelayBase
          ((jget st.dailyAttempts (k ++ "_" ++ today)).getD 0 + 1) * 60 * 1000,
        (jget st.dailyAttempts (k ++ "_" ++ today)).getD 0 + 1⟩ ∧
    jget (UnblockManager.request now today st d).2.dailyAttempts
        (k ++ "_" ++ today) =
      some ((jget st.dailyAttempts (k ++ "_" ++ today)).getD 0 + 1) ∧
    (specDelay 5 1 = 5 ∧ specDelay 5 2 = 10 ∧ specDelay 5 3 = 15 ∧
      ∀ M : Int, 3 ≤ M → specDelay 5 M = 15) := by
  rw [request_runs_core now today st d k hd hp,
    requestCore_eval now today st k hesc hbase hprev]
  refine ⟨rfl, jget_jset_self _ _ _, jget_jset_self _ _ _, ?_, ?_, ?_, ?_⟩
  · norm_num [specDelay]
  · norm_num [specDelay]
  · norm_num [specDelay]
  · intro M hM
    rw [specDelay, if_neg (by omega), min_eq_left (by omega)]

/-- Witness for C1: first request for `"example.com"` on the empty store,
default settings — the granted delay is 300 s (5 minutes). -/
theorem request_escalation_spec_witness :
    (UnblockManager.request 0 "2026-01-01"
      ⟨[], DEFAULT_SETTINGS, DEFAULT_STATS, [], []⟩ "example.com").1 =
      .ok ⟨300, 300000, 1⟩ := by
  have h := request_escalation_spec 0 "2026-01-01"
    ⟨[], DEFAULT_SETTINGS, DEFAULT_STATS, [], []⟩ "example.com" "example.com"
    (by decide) (fun p hp => Option.noConfusion hp) rfl (by decide) (by decide)
  simpa using h.1

/-- **C5.** A second `request` issued while the first's delay has not yet
elapsed fails with `unblock_pending` carrying the remaining seconds, which
are positive and at most the originally granted delay (`w` seconds, where
the stored entry has `unlocksAt = requestedAt + w·1000`); the state —
including the stored PendingUnblock and the daily attempt counter — is
completely unchanged. -/
theorem request_pending_spec (now : Int) (today : String) (st : StoreState)
    (d k : String) (p : PendingUnblock) (w : Int)
    (hd : extractDomain d = some k)
    (hp : jget st.pendingUnblocks k = some p)
    (hw : p.unlocksAt = p.requestedAt + w * 1000)
    (hreq : p.requestedAt ≤ now)
    (hnow : now < p.unlocksAt) :
    UnblockManager.request now today st d =
      (.error ⟨.unblock_pending, some (ceilDiv (p.unlocksAt - now) 1000)⟩, st) ∧
    0 < ceilDiv (p.unlocksAt - now) 1000 ∧
    ceilDiv (p.unlocksAt - now) 1000 ≤ w := by
  have hpos : 0 < ceilDiv (p.unlocksAt - now) 1000 :=
    (ceilDiv_pos_iff _).mpr (by omega)
  refine ⟨?_, hpos, ?_⟩
  · simp only [UnblockManager.request, hd, hp]
    rw [if_pos hpos]
  · calc ceilDiv (p.unlocksAt - now) 1000
        ≤ ceilDiv (w * 1000) 1000 := ceilDiv_le_ceilDiv (by omega)
      _ = w := ceilDiv_mul_cancel w

/-- Witness for C5: a second request 100 s into a 300 s delay is rejected
with 200 s remaining. -/
theorem request_pending_spec_witness :
    UnblockManager.request 100000 "2026-01-01"
      ⟨[], DEFAULT_SETTINGS, DEFAULT_STATS,
        [("example.com", ⟨0, 300000, 1⟩)], [("example.com_2026-01-01", 1)]⟩
      "example.com" =
      (.error ⟨.unblock_pending, some 200⟩,
        ⟨[], DEFAULT_SETTINGS, DEFAULT_STATS,
          [("example.com", ⟨0, 300000, 1⟩)], [("example.com_2026-01-01", 1)]⟩) ∧
    (0 : Int) < 200 ∧ (200 : Int) ≤ 300 := by
  have h := request_pending_spec 100000 "2026-01-01"
    ⟨[], DEFAULT_SETTINGS, DEFAULT_STATS,
      [("example.com", ⟨0, 300000, 1⟩)], [("example.com_2026-01-01", 1)]⟩
    "example.com" "example.com" ⟨0, 300000, 1⟩ 300
    (by decide) (by decide) (by decide) (by decide) (by decide)
  simpa [show ceilDiv 200000 1000 = 200 from by decide] using h

/-- **C10.** If a PendingUnblock exists but its `unlocksAt` has passed, a
new `request` does not fail with `unblock_pending`: it succeeds, increments
the same-day attempt counter, and overwrites the old entry with a fresh
PendingUnblock (`requestedAt = now`), keeping exactly one PendingUnblock
for the domain; with the default base and at least one earlier same-day
attempt the newly granted delay is escalated (≥ 600 s > the 300 s base). -/
theorem request_after_expiry_spec (now : Int) (today : String) (st : StoreState)
    (d k : String) (p : PendingUnblock)
    (hd : extractDomain d = some k)
    (hp : jget st.pendingUnblocks k = some p)
    (hexp : p.unlocksAt ≤ now)
    (hcnt : countKey st.pendingUnblocks k ≤ 1)
    (hesc : st.settings.unblockDelayEscalation = true)
    (hbase : st.settings.unblockDelayBase ≠ 0)
    (hprev : 0 ≤ (jget st.dailyAttempts (k ++ "_" ++ today)).getD 0) :
    (UnblockManager.request now today st d).1 =
      .ok ⟨specDelay st.settings.unblockDelayBase
              ((jget st.dailyAttempts (k ++ "_" ++ today)).getD 0 + 1) * 60,
            now + specDelay st.settings.unblockDelayBase
              ((jget st.dailyAttempts (k ++ "_" ++ today)).getD 0 + 1) * 60 * 1000,
            (jget st.dailyAttempts (k ++ "_" ++ today)).getD 0 + 1⟩ ∧
    jget (UnblockManager.request now today st d).2.pendingUnblocks k =
      some ⟨now,
        now + specDelay st.settings.unblockDelayBase
          ((jget st.dailyAttempts (k ++ "_" ++ today)).getD 0 + 1) * 60 * 1000,
        (jget st.dailyAttempts (k ++ "_" ++ today)).getD 0 + 1⟩ ∧
    countKey (UnblockManager.request now today st d).2.pendingUnblocks k = 1 ∧
    jget (UnblockManager.request now today st d).2.dailyAttempts
        (k ++ "_" ++ today) =
      some ((jget st.dailyAttempts (k ++ "_" ++ today)).getD 0 + 1) ∧
    (st.settings.unblockDelayBase = 5 →
      1 ≤ (jget st.dailyAttempts (k ++ "_" ++ today)).getD 0 →
      600 ≤ specDelay st.settings.unblockDelayBase
        ((jget st.dailyAttempts (k ++ "_" ++ today)).getD 0 + 1) * 60) := by
  rw [request_runs_core now today st d k hd (fun q hq => by
      rw [hp] at hq
      cases hq
      exact hexp),
    requestCore_eval now today st k hesc hbase hprev]
  refine ⟨rfl, jget_jset_self _ _ _, countKey_jset _ _ _ hcnt,
    jget_jset_self _ _ _, ?_⟩
  intro hb5 hone
  rw [specDelay, if_neg (by omega), hb5]
  have h10 : (10 : Int) ≤ min 15 (5 + ((jget st.dailyAttempts (k ++ "_" ++ today)).getD 0 + 1 - 1) * 5) :=
    le_min (by omega) (by omega)
  omega

/-- Witness for C10: re-requesting `"example.com"` right after the first
delay expired succeeds with an escalated 600 s delay and one pending entry. -/
theorem request_after_expiry_spec_witness :
    (UnblockManager.request 300000 "2026-01-01"
      ⟨[], DEFAULT_SETTINGS, DEFAULT_STATS,
        [("example.com", ⟨0, 300000, 1⟩)], [("example.com_2026-01-01", 1)]⟩
      "example.com").1 = .ok ⟨600, 900000, 2⟩ ∧
    countKey (UnblockManager.request 300000 "2026-01-01"
      ⟨[], DEFAULT_SETTINGS, DEFAULT_STATS,
        [("example.com", ⟨0, 300000, 1⟩)], [("example.com_2026-01-01", 1)]⟩
      "example.com").2.pendingUnblocks "example.com" = 1 := by
  have h := request_after_expiry_spec 300000 "2026-01-01"
    ⟨[], DEFAULT_SETTINGS, DEFAULT_STATS,
      [("example.com", ⟨0, 300000, 1⟩)], [("example.com_2026-01-01", 1)]⟩
    "example.com" "example.com" ⟨0, 300000, 1⟩
    (by decide) (by decide) (by decide) (by decide) rfl (by decide) (by decide)
  exact ⟨by simpa using h.1, h.2.2.1⟩

/-! ## Claim C2 — the confirm gate (corrected)

The first half of C2 holds as stated. The second half fails on the code in
one corner: `confirm` delegates to the block manager's `remove`, which
throws `block_not_found` when the domain has no BlockEntry (a PendingUnblock
can exist without one, since `request` never checks that a block exists), and
that error propagates out of `confirm` instead of a success. -/

/-- **C2 (counterexample).** A state with a PendingUnblock for
`"example.com"` (unlocked: `now = unlocksAt = 1000`) but no BlockEntry:
`confirm` at/after `unlocksAt` does not succeed — it returns
`block_not_found` — contradicting the claim that it always succeeds. -/
theorem confirm_noblock_counterexample :
    (UnblockManager.confirm 1000
      ⟨[], DEFAULT_SETTINGS, DEFAULT_STATS, [("example.com", ⟨0, 1000, 1⟩)], []⟩
      "example.com").1 = .error ⟨.block_not_found, none⟩ := by decide

/-- **C2 (amended).** For every domain with a PendingUnblock: `confirm`
strictly before `unlocksAt` (a fresh clock read `now1`) fails with
`unblock_delay_not_complete` carrying a strictly positive `remainingTime`
and mutates nothing; at or after `unlocksAt` (`now2`), *provided the domain
still has a BlockEntry*, `confirm` succeeds — delegating to Block Registry
`remove` and deleting the PendingUnblock — and, provided no other stored
block matches the domain, `isBlocked(domain)` is subsequently false. -/
theorem confirm_gate_spec (st : StoreState) (d k : String) (p : PendingUnblock)
    (now1 now2 : Int)
    (hd : extractDomain d = some k)
    (hk : extractDomain k = some k)
    (hp : jget st.pendingUnblocks k = some p) :
    (now1 < p.unlocksAt →
      UnblockManager.confirm now1 st d =
        (.error ⟨.unblock_delay_not_complete,
          some (ceilDiv (p.unlocksAt - now1) 1000)⟩, st) ∧
      0 < ceilDiv (p.unlocksAt - now1) 1000) ∧
    (p.unlocksAt ≤ now2 → (jget st.activeBlocks k).isSome = true →
      (UnblockManager.confirm now2 st d).1 = .ok k ∧
      jget (UnblockManager.confirm now2 st d).2.activeBlocks k = none ∧
      jget (UnblockManager.confirm now2 st d).2.pendingUnblocks k = none ∧
      ((∀ pr ∈ st.activeBlocks, pr.1 ≠ k → domainMatches k pr.1 = false) →
        (BlockManager.isBlocked now2 (UnblockManager.confirm now2 st d).2 d).1 =
          false)) := by
  constructor
  · intro hlt
    refine ⟨?_, (ceilDiv_pos_iff _).mpr (by omega)⟩
    simp only [UnblockManager.confirm, hd, hp]
    rw [if_pos (by omega)]
  · intro hle hblk
    have hrem : BlockManager.remove st k =
        (.ok k, { st with activeBlocks := jdel st.activeBlocks k,
                          pendingUnblocks := jdel st.pendingUnblocks k }) := by
      simp only [BlockManager.remove, hk, hblk, if_true]
    have hconf : UnblockManager.confirm now2 st d =
        (.ok k, { st with activeBlocks := jdel st.activeBlocks k,
                          pendingUnblocks := jdel (jdel st.pendingUnblocks k) k }) := by
      simp only [UnblockManager.confirm, hd, hp]
      rw [if_neg (by omega)]
      simp only [UnblockManager.confirmCore, hrem]
    rw [hconf]
    refine ⟨rfl, jget_jdel_self _ _, jget_jdel_self _ _, ?_⟩
    intro hno
    have hget1 : (BlockManager.getAll now2
        { st with activeBlocks := jdel st.activeBlocks k,
                  pendingUnblocks := jdel (jdel st.pendingUnblocks k) k }).1 =
        (jdel st.activeBlocks k).filter (fun p => decide (now2 < p.2.«until»)) := by
      simp only [BlockManager.getAll]
    have hnone : jget ((jdel st.activeBlocks k).filter
        (fun p => decide (now2 < p.2.«until»))) k = none :=
      jget_filter_none _ (jget_jdel_self _ _)
    simp only [BlockManager.isBlocked, hd, hget1, hnone, Option.isSome_none,
      Bool.false_eq_true, if_false]
    rw [Bool.eq_false_iff]
    intro hc
    rw [List.any_eq_true] at hc
    obtain ⟨pr, hmem, hmatch⟩ := hc
    have hm1 := List.mem_filter.mp hmem
    have hm2 := mem_jdel hm1.1
    rw [hno pr hm2.1 hm2.2] at hmatch
    exact Bool.noConfusion hmatch

/-- Witness for C2 (amended): block and pending unblock on `"example.com"`,
confirm at 100 s fails with 200 s remaining; confirm at 300 s succeeds and
the domain is no longer blocked. -/
theorem confirm_gate_spec_witness :
    (UnblockManager.confirm 100000
      ⟨[("example.com", ⟨600000, 0, "manual"⟩)], DEFAULT_SETTINGS, DEFAULT_STATS,
        [("example.com", ⟨0, 300000, 1⟩)], []⟩ "example.com").1 =
      .error ⟨.unblock_delay_not_complete, some 200⟩ ∧
    (UnblockManager.confirm 300000
      ⟨[("example.com", ⟨600000, 0, "manual"⟩)], DEFAULT_SETTINGS, DEFAULT_STATS,
        [("example.com", ⟨0, 300000, 1⟩)], []⟩ "example.com").1 = .ok "example.com" ∧
    (BlockManager.isBlocked 300000
      (UnblockManager.confirm 300000
        ⟨[("example.com", ⟨600000, 0, "manual"⟩)], DEFAULT_SETTINGS, DEFAULT_STATS,
          [("example.com", ⟨0, 300000, 1⟩)], []⟩ "example.com").2
      "example.com").1 = false := by
  have h := confirm_gate_spec
    ⟨[("example.com", ⟨600000, 0, "manual"⟩)], DEFAULT_SETTINGS, DEFAULT_STATS,
      [("example.com", ⟨0, 300000, 1⟩)], []⟩
    "example.com" "example.com" ⟨0, 300000, 1⟩ 100000 300000
    (by decide) (by decide) (by decide)
  have h1 := (h.1 (by decide)).1
  have h2 := h.2 (by decide) (by decide)
  refine ⟨?_, h2.1, h2.2.2.2 (by decide)⟩
  rw [h1]
  simp [show ceilDiv 200000 1000 = 200 from by decide]

/-! ## Claim C3 — schedule checks and existing blocks (corrected)

The no-restart half of C3 holds: a schedule-sourced block already in place
is never re-applied. The manual-block half fails on the code: `checkSingle`
re-applies a schedule block whenever the existing entry's `reason` is *not*
`schedule`, so a manual block in the window is overwritten (its `reason`
becomes `schedule` and its `until` is reset to the window end, which can
shorten it). -/

theorem validateDomain_ok_key {d c : String} (h : validateDomain d = .ok c) :
    extractDomain d = some c := by
  unfold validateDomain at h
  by_cases h0 : d.data = []
  · rw [if_pos h0] at h
    exact Except.noConfusion h
  · rw [if_neg h0] at h
    cases hx : extractDomain d with
    | none =>
      rw [hx] at h
      exact Except.noConfusion h
    | some cl =>
      simp only [hx] at h
      split_ifs at h
      injection h with h2
      rw [h2]

/-- `add` never touches the entry of a key other than the one its domain
argument cleans to (and on a validation error it touches nothing). -/
theorem add_preserves_other (now : Int) (st : StoreState) (d : String)
    (mi : DurationInput) (r k : String) (hne : extractDomain d ≠ some k) :
    jget (BlockManager.add now st d mi r).2.activeBlocks k =
      jget st.activeBlocks k := by
  unfold BlockManager.add
  cases hv : validateDomain d with
  | error c => rfl
  | ok c =>
    have hc : extractDomain d = some c := validateDomain_ok_key hv
    have hck : c ≠ k := fun h => hne (h ▸ hc)
    cases hm : validateDuration mi with
    | error c2 => rfl
    | ok m => exact jget_jset_ne _ _ _ _ (Ne.symm hck)

theorem getAll_fst (now : Int) (st : StoreState) :
    (BlockManager.getAll now st).1 =
      st.activeBlocks.filter (fun p => decide (now < p.2.«until»)) := rfl

/-- An unexpired entry survives the lazy pruning of `getAll` (result map). -/
theorem getAll_fst_jget (now : Int) (st : StoreState) (k : String) (e : BlockEntry)
    (hb : jget st.activeBlocks k = some e) (hlive : now < e.«until») :
    jget (BlockManager.getAll now st).1 k = some e := by
  rw [getAll_fst]
  exact jget_filter_keep _ hb (by simpa using hlive)

/-- An unexpired entry survives the lazy pruning of `getAll` (state). -/
theorem getAll_snd_jget (now : Int) (st : StoreState) (k : String) (e : BlockEntry)
    (hb : jget st.activeBlocks k = some e) (hlive : now < e.«until») :
    jget (BlockManager.getAll now st).2.activeBlocks k = some e := by
  by_cases hexp : st.activeBlocks.any (fun p => decide (¬ now < p.2.«until»)) = true
  · rw [getAll_pos_eq now st hexp]
    exact jget_filter_keep _ hb (by simpa using hlive)
  · rw [Bool.not_eq_true] at hexp
    rw [getAll_neg_eq now st hexp]
    exact hb

theorem getBlockInfo_eq_invalid (now : Int) (st : StoreState) (d : String)
    (hx : extractDomain d = none) :
    BlockManager.getBlockInfo now st d = (none, st) := by
  simp only [BlockManager.getBlockInfo, hx]

theorem getBlockInfo_eq_direct (now : Int) (st : StoreState) (d kd : String)
    (info : BlockEntry) (hx : extractDomain d = some kd)
    (hkd : jget (BlockManager.getAll now st).1 kd = some info) :
    BlockManager.getBlockInfo now st d =
      (some (kd, info), (BlockManager.getAll now st).2) := by
  simp only [BlockManager.getBlockInfo, hx, hkd]

theorem getBlockInfo_eq_parent (now : Int) (st : StoreState) (d kd : String)
    (pr : String × BlockEntry) (hx : extractDomain d = some kd)
    (hkd : jget (BlockManager.getAll now st).1 kd = none)
    (hfind : (BlockManager.getAll now st).1.find?
      (fun p => domainMatches kd p.1) = some pr) :
    BlockManager.getBlockInfo now st d =
      (some (pr.1, pr.2), (BlockManager.getAll now st).2) := by
  simp only [BlockManager.getBlockInfo, hx, hkd, hfind]

theorem getBlockInfo_eq_none (now : Int) (st : StoreState) (d kd : String)
    (hx : extractDomain d = some kd)
    (hkd : jget (BlockManager.getAll now st).1 kd = none)
    (hfind : (BlockManager.getAll now st).1.find?
      (fun p => domainMatches kd p.1) = none) :
    BlockManager.getBlockInfo now st d = (none, (BlockManager.getAll now st).2) := by
  simp only [BlockManager.getBlockInfo, hx, hkd, hfind]

/-- One schedule-loop iteration never disturbs a live schedule-sourced
BlockEntry: if `jget st.activeBlocks k = some e` with `now < e.until` and
`e.reason = "schedule"`, the same binding survives `scheduleStep`. -/
theorem scheduleStep_preserves (now rem : Int) (d : String) (st : StoreState)
    (k : String) (e : BlockEntry)
    (hb : jget st.activeBlocks k = some e) (hlive : now < e.«until»)
    (hr : e.reason = BLOCK_REASONS.SCHEDULE) :
    jget (ScheduleManager.scheduleStep now rem st d).activeBlocks k = some e := by
  have hst1 := getAll_snd_jget now st k e hb hlive
  cases hx : extractDomain d with
  | none =>
    simp only [ScheduleManager.scheduleStep, getBlockInfo_eq_invalid now st d hx]
    rw [add_preserves_other now st d _ _ k (by rw [hx]; exact fun h => Option.noConfusion h)]
    exact hb
  | some kd =>
    by_cases hkk : kd = k
    · subst hkk
      have hkd : jget (BlockManager.getAll now st).1 kd = some e :=
        getAll_fst_jget now st kd e hb hlive
      simp only [ScheduleManager.scheduleStep,
        getBlockInfo_eq_direct now st d kd e hx hkd]
      rw [if_neg (by rw [hr]; exact fun hc => hc rfl)]
      exact hst1
    · have hnedom : extractDomain d ≠ some k := by
        rw [hx]
        exact fun h => hkk (Option.some.inj h)
      cases hkd : jget (BlockManager.getAll now st).1 kd with
      | some info =>
        simp only [ScheduleManager.scheduleStep,
          getBlockInfo_eq_direct now st d kd info hx hkd]
        by_cases hcond : ¬ info.reason = BLOCK_REASONS.SCHEDULE
        · rw [if_pos hcond, add_preserves_other now _ d _ _ k hnedom]
          exact hst1
        · rw [if_neg hcond]
          exact hst1
      | none =>
        cases hfind : (BlockManager.getAll now st).1.find?
            (fun p => domainMatches kd p.1) with
        | some pr =>
          simp only [ScheduleManager.scheduleStep,
            getBlockInfo_eq_parent now st d kd pr hx hkd hfind]
          by_cases hcond : ¬ pr.2.reason = BLOCK_REASONS.SCHEDULE
          · rw [if_pos hcond, add_preserves_other now _ d _ _ k hnedom]
            exact hst1
          · rw [if_neg hcond]
            exact hst1
        | none =>
          simp only [ScheduleManager.scheduleStep,
            getBlockInfo_eq_none now st d kd hx hkd hfind]
          rw [add_preserves_other now _ d _ _ k hnedom]
          exact hst1

theorem foldl_scheduleStep_preserves (now rem : Int) (ds : List String)
    (st : StoreState) (k : String) (e : BlockEntry)
    (hb : jget st.activeBlocks k = some e) (hlive : now < e.«until»)
    (hr : e.reason = BLOCK_REASONS.SCHEDULE) :
    jget (ds.foldl (ScheduleManager.scheduleStep now rem) st).activeBlocks k =
      some e := by
  induction ds generalizing st with
  | nil => simpa using hb
  | cons d ds ih =>
    exact ih _ (scheduleStep_preserves now rem d st k e hb hlive hr)

/-- **C3 (counterexample).** A *manual* block on `"news.com"` until
`t = 100000000` ms is silently overridden and shortened by a schedule
evaluation at `now = 0` (Wednesday 10:00, window 09:00–17:00): afterwards
the entry reads `reason = "schedule"` with `until = 25200000 < 100000000`,
contradicting the claim that a manual block is never overridden/shortened. -/
theorem checkSingle_manual_override_counterexample :
    jget (⟨[("news.com", ⟨100000000, 0, "manual"⟩)], DEFAULT_SETTINGS,
        DEFAULT_STATS, [], []⟩ : StoreState).activeBlocks "news.com" =
      some ⟨100000000, 0, "manual"⟩ ∧
    jget (ScheduleManager.checkSingle 0 3 600
      ⟨"sch_1", ["news.com"], 540, 1020, [3], true, 0⟩
      ⟨[("news.com", ⟨100000000, 0, "manual"⟩)], DEFAULT_SETTINGS,
        DEFAULT_STATS, [], []⟩).activeBlocks "news.com" =
      some ⟨25200000, 0, "schedule"⟩ ∧
    (25200000 : Int) < 100000000 := by
  exact ⟨by decide, by decide, by decide⟩

/-- **C3 (amended).** A schedule-sourced block already in place is never
restarted by a schedule evaluation: any live BlockEntry with
`reason = "schedule"` survives `checkSingle` for any schedule completely
unchanged (same `until`); in particular re-invoking `checkSingle`
immediately after it created a schedule block leaves that block's `until`
unchanged. (The original claim's other half — that a *manual* block is
never overridden or shortened — is false on the code; see the
counterexample.) -/
theorem checkSingle_no_restart (now currentDay currentMinutes : Int)
    (sched : Schedule) (st : StoreState) (k : String) (e : BlockEntry)
    (hb : jget st.activeBlocks k = some e) (hlive : now < e.«until»)
    (hr : e.reason = BLOCK_REASONS.SCHEDULE) :
    jget (ScheduleManager.checkSingle now currentDay currentMinutes
      sched st).activeBlocks k = some e := by
  simp only [ScheduleManager.checkSingle]
  by_cases h1 : (!sched.enabled) = true
  · rw [if_pos h1]
    exact hb
  · rw [if_neg h1]
    by_cases h2 : (!sched.days.contains currentDay) = true
    · rw [if_pos h2]
      exact hb
    · rw [if_neg h2]
      by_cases h3 : (!isInTimeWindow currentMinutes sched.startTime sched.endTime) = true
      · rw [if_pos h3]
        exact hb
      · rw [if_neg h3]
        by_cases h4 : minutesUntilEndTime currentMinutes sched.endTime ≤ 0
        · rw [if_pos h4]
          exact hb
        · rw [if_neg h4]
          exact foldl_scheduleStep_preserves _ _ _ _ _ _ hb hlive hr

/-- Witness for C3 (amended): after `checkSingle` creates the schedule
block for `"news.com"` (until = 25200000), an immediate second
`checkSingle` leaves the entry — in particular its `until` — unchanged. -/
theorem checkSingle_no_restart_witness :
    jget (ScheduleManager.checkSingle 0 3 600
        ⟨"sch_1", ["news.com"], 540, 1020, [3], true, 0⟩
        (ScheduleManager.checkSingle 0 3 600
          ⟨"sch_1", ["news.com"], 540, 1020, [3], true, 0⟩
          ⟨[], DEFAULT_SETTINGS, DEFAULT_STATS, [], []⟩)).activeBlocks
      "news.com" = some ⟨25200000, 0, "schedule"⟩ :=
  checkSingle_no_restart 0 3 600
    ⟨"sch_1", ["news.com"], 540, 1020, [3], true, 0⟩
    (ScheduleManager.checkSingle 0 3 600
      ⟨"sch_1", ["news.com"], 540, 1020, [3], true, 0⟩
      ⟨[], DEFAULT_SETTINGS, DEFAULT_STATS, [], []⟩)
    "news.com" ⟨25200000, 0, "schedule"⟩ (by decide) (by decide) (by decide)

end FocusGuard
